import Mathlib

/-!
Verification of the scoring-and-segmentation engine of the Yogyakarta
coffee-shop analysis pipeline.

The engine (src/code/scoring-and-segmentation.py together with the segment
assignment of src/code/recommendation.py) is embedded shallowly:

* text preprocessing `preprocess_text_advanced` (lowercase, strip non-letters,
  black-box stemmer, stopword removal, re-join with spaces);
* per-review keyword scoring `calculate_weighted_score`
  (sum of `weights.get(word, 0)` over the split words);
* the left merge of the shops table with the reviews table followed by
  `dropna` on the review text (`df_merged`);
* the `groupby('Id').agg` step producing one row per distinct venue id with
  first-seen metadata and summed persona scores (`shop_scores`);
* `MinMaxScaler` column normalization, including scikit-learn's policy of
  replacing a zero range `max - min` by 1 (`scaleVal`, `normalizeShopScores`);
* the median based four-quadrant segmentation (`median`, `assign_segment`,
  `segmentShops`).

Python floats are modelled by `ℚ`; all arithmetic in the engine is exact on
the modelled inputs, so rational arithmetic is a faithful model of the
numeric behaviour the spec describes.  The Sastrawi stemmer is a third-party
black box and is modelled as an explicit function parameter `stem`, as the
spec itself prescribes (a pluggable deterministic `stem : string -> string`).
-/

/-- Characters the Python regex `\s` (and `str.split()` on the engine's
alphabet) treats as whitespace. -/
def pyIsSpace (c : Char) : Bool :=
  c = ' ' || c = '\t' || c = '\n' || c = '\x0d' || c = '\x0b' || c = '\x0c'

/-- ASCII lowercasing of one character, the behaviour of `str.lower` on the
characters that can survive the engine's subsequent `[^a-z\s]` strip. -/
def charLower (c : Char) : Char :=
  if 'A' ≤ c ∧ c ≤ 'Z' then Char.ofNat (c.toNat + 32) else c

/-- `text.lower()`. -/
def pyLower (s : String) : String := ⟨s.data.map charLower⟩

/-- `re.sub(r'[^a-z\s]', '', text)`: keep only lowercase letters and
whitespace. -/
def stripNonAlpha (s : String) : String :=
  ⟨s.data.filter (fun c => ('a' ≤ c ∧ c ≤ 'z') ∨ pyIsSpace c)⟩

/-- Worker for `str.split()`: split on whitespace runs, dropping empty
pieces.  `cur` holds the current word reversed. -/
def wordsAux (cur : List Char) : List Char → List (List Char)
  | [] => if cur.isEmpty then [] else [cur.reverse]
  | c :: cs =>
      if pyIsSpace c then
        if cur.isEmpty then wordsAux [] cs else cur.reverse :: wordsAux [] cs
      else wordsAux (c :: cur) cs

/-- `text.split()` with no separator argument: whitespace-separated words,
no empty strings. -/
def pyWords (s : String) : List String :=
  (wordsAux [] s.data).map fun l => ⟨l⟩

/-- `" ".join(words)`. -/
def pyJoin : List String → String
  | [] => ""
  | [w] => w
  | w :: ws => w ++ " " ++ pyJoin ws

/-- `preprocess_text_advanced` from scoring-and-segmentation.py: lowercase,
strip everything that is not a lowercase letter or whitespace, stem the whole
string with the (black-box, injected) stemmer, split into words, drop
stopwords, and re-join with single spaces. -/
def preprocess_text_advanced (stem : String → String) (stopwords : List String)
    (text : String) : String :=
  pyJoin (((pyWords (stem (stripNonAlpha (pyLower text))))).filter
    fun w => decide (w ∉ stopwords))

/-- `weights.get(word, 0)` on the weight dictionary, modelled as an
association list. -/
def dict_get (weights : List (String × Nat)) (w : String) : Nat :=
  ((weights.find? fun p => p.1 == w).map fun p => p.2).getD 0

/-- `calculate_weighted_score` from scoring-and-segmentation.py:
`sum(weights.get(word, 0) for word in text.split())`. -/
def calculate_weighted_score (text : String) (weights : List (String × Nat)) : Nat :=
  ((pyWords text).map fun w => dict_get weights w).sum

/-- One row of the cleaned shops table (columns used downstream). -/
structure Shop where
  id : Nat
  organizationName : String
  rateStars : ℚ
  reviewsTotalCount : Nat
deriving DecidableEq

/-- One row of the reviews table; `none` models a NaN `ReviewTextOriginal`. -/
structure ReviewRow where
  organizationId : Nat
  reviewTextOriginal : Option String
deriving DecidableEq

/-- `pd.merge(df_shops, df_reviews, left_on='Id', right_on='OrganizationId',
how='left')`: every shop row is kept, paired with each matching review in
order; a shop with no matching review yields a single row whose review
columns are NaN (`none`). -/
def merge_left (shops : List Shop) (reviews : List ReviewRow) :
    List (Shop × Option ReviewRow) :=
  shops.flatMap fun s =>
    let ms := reviews.filter fun r => r.organizationId == s.id
    if ms.isEmpty then [(s, none)] else ms.map fun r => (s, some r)

/-- `df_merged` after `dropna(subset=['ReviewTextOriginal'])`: only pairs
with an actual review text survive. -/
def df_merged (shops : List Shop) (reviews : List ReviewRow) :
    List (Shop × ReviewRow × String) :=
  (merge_left shops reviews).filterMap fun p =>
    match p.2 with
    | none => none
    | some r =>
      match r.reviewTextOriginal with
      | none => none
      | some t => some (p.1, r, t)

/-- One row of `df_merged` after the `CleanedReview`, `skor_nugas_review` and
`skor_nongkrong_review` columns have been added. -/
structure MergedRow where
  id : Nat
  organizationName : String
  rateStars : ℚ
  reviewsTotalCount : Nat
  skorNugasReview : Nat
  skorNongkrongReview : Nat
deriving DecidableEq

/-- Adding the cleaned-review and per-review score columns to the merged
rows (lines 88 and 112-113 of scoring-and-segmentation.py). -/
def scoreRows (stem : String → String) (stopwords : List String)
    (wNugas wNongkrong : List (String × Nat))
    (rows : List (Shop × ReviewRow × String)) : List MergedRow :=
  rows.map fun p =>
    let cleaned := preprocess_text_advanced stem stopwords p.2.2
    { id := p.1.id
      organizationName := p.1.organizationName
      rateStars := p.1.rateStars
      reviewsTotalCount := p.1.reviewsTotalCount
      skorNugasReview := calculate_weighted_score cleaned wNugas
      skorNongkrongReview := calculate_weighted_score cleaned wNongkrong }

/-- One row of the aggregated `shop_scores` table. -/
structure ShopScore where
  id : Nat
  organizationName : String
  rateStars : ℚ
  reviewsTotalCount : Nat
  totalSkorNugas : Nat
  totalSkorNongkrong : Nat
deriving DecidableEq

/-- The distinct venue ids of the merged rows, ascending — the group keys of
`groupby('Id')` (pandas sorts group keys). -/
def sortedKeys (rows : List MergedRow) : List Nat :=
  List.insertionSort (· ≤ ·) ((rows.map fun r => r.id).dedup)

/-- `df_merged.groupby('Id').agg({... 'first', ... 'sum'})`: one output row
per distinct id, metadata from the first row of the group, persona scores
summed over the group. -/
def shop_scores (rows : List MergedRow) : List ShopScore :=
  (sortedKeys rows).map fun v =>
    let grp := rows.filter fun r => r.id == v
    let fst := rows.find? fun r => r.id == v
    { id := v
      organizationName := (fst.map fun r => r.organizationName).getD ("")
      rateStars := (fst.map fun r => r.rateStars).getD 0
      reviewsTotalCount := (fst.map fun r => r.reviewsTotalCount).getD 0
      totalSkorNugas := (grp.map fun r => r.skorNugasReview).sum
      totalSkorNongkrong := (grp.map fun r => r.skorNongkrongReview).sum }

/-- Minimum of a column, as `MinMaxScaler.fit` computes it. -/
def listMin : List ℚ → ℚ
  | [] => 0
  | [x] => x
  | x :: y :: ys => min x (listMin (y :: ys))

/-- Maximum of a column, as `MinMaxScaler.fit` computes it. -/
def listMax : List ℚ → ℚ
  | [] => 0
  | [x] => x
  | x :: y :: ys => max x (listMax (y :: ys))

/-- scikit-learn `MinMaxScaler` transform of a single value given the fitted
column minimum and maximum: `(x - min) / (max - min)`, where a zero range is
replaced by 1 (`_handle_zeros_in_scale`), so an all-tied column maps to 0. -/
def scaleVal (lo hi x : ℚ) : ℚ :=
  (x - lo) / (if hi - lo = 0 then 1 else hi - lo)

/-- The `Total_Skor_Nugas` column of `shop_scores`, as rationals. -/
def colNugas (ss : List ShopScore) : List ℚ :=
  ss.map fun s => (s.totalSkorNugas : ℚ)

/-- The `Total_Skor_Nongkrong` column of `shop_scores`, as rationals. -/
def colNongkrong (ss : List ShopScore) : List ℚ :=
  ss.map fun s => (s.totalSkorNongkrong : ℚ)

/-- `MinMaxScaler().fit_transform` of one column. -/
def minmaxScale (xs : List ℚ) : List ℚ :=
  xs.map (scaleVal (listMin xs) (listMax xs))

/-- A `shop_scores` row extended with the two normalized score columns. -/
structure NormShopScore where
  id : Nat
  organizationName : String
  rateStars : ℚ
  reviewsTotalCount : Nat
  totalSkorNugas : Nat
  totalSkorNongkrong : Nat
  nugasNorm : ℚ
  nongkrongNorm : ℚ
deriving DecidableEq

/-- Normalization of one `shop_scores` row against the column statistics of
the whole population `ss` (the `fit_transform` on the two total columns). -/
def normalizeOne (ss : List ShopScore) (s : ShopScore) : NormShopScore :=
  { id := s.id
    organizationName := s.organizationName
    rateStars := s.rateStars
    reviewsTotalCount := s.reviewsTotalCount
    totalSkorNugas := s.totalSkorNugas
    totalSkorNongkrong := s.totalSkorNongkrong
    nugasNorm := scaleVal (listMin (colNugas ss)) (listMax (colNugas ss))
      (s.totalSkorNugas : ℚ)
    nongkrongNorm := scaleVal (listMin (colNongkrong ss)) (listMax (colNongkrong ss))
      (s.totalSkorNongkrong : ℚ) }

/-- Lines 126-129 of scoring-and-segmentation.py: add the
`Nugas_Score_Normalized` and `Nongkrong_Score_Normalized` columns by min-max
scaling each total column over the whole venue population. -/
def normalizeShopScores (ss : List ShopScore) : List NormShopScore :=
  ss.map (normalizeOne ss)

/-- `Series.median()`: sort ascending; odd count takes the middle element,
even count averages the two middle elements. -/
def median (xs : List ℚ) : ℚ :=
  let s := List.insertionSort (· ≤ ·) xs
  if xs.length % 2 = 1 then s.getD (xs.length / 2) 0
  else (s.getD (xs.length / 2 - 1) 0 + s.getD (xs.length / 2) 0) / 2

/-- The four quadrant labels of recommendation.py. -/
inductive Segment where
  | allRounder
  | productivityHub
  | socialHotspot
  | generalPurpose
deriving DecidableEq

/-- `assign_segment` from recommendation.py: closed comparisons of the two
normalized scores against the two population medians. -/
def assign_segment (medianNugas medianNongkrong nugas nongkrong : ℚ) : Segment :=
  if nugas ≥ medianNugas ∧ nongkrong ≥ medianNongkrong then .allRounder
  else if nugas ≥ medianNugas ∧ ¬(nongkrong ≥ medianNongkrong) then .productivityHub
  else if ¬(nugas ≥ medianNugas) ∧ nongkrong ≥ medianNongkrong then .socialHotspot
  else .generalPurpose

/-- A normalized venue row together with its `Segment` column. -/
structure SegmentedShop where
  score : NormShopScore
  segment : Segment
deriving DecidableEq

/-- Lines 36-54 of recommendation.py: compute the two population medians of
the normalized columns, then label every venue with `assign_segment`. -/
def segmentShops (scores : List NormShopScore) : List SegmentedShop :=
  let medNugas := median (scores.map fun s => s.nugasNorm)
  let medNongkrong := median (scores.map fun s => s.nongkrongNorm)
  scores.map fun s =>
    ⟨s, assign_segment medNugas medNongkrong s.nugasNorm s.nongkrongNorm⟩

/-- The full engine: merge and drop reviewless rows, clean and score each
review, aggregate per venue, min-max normalize, segment. -/
def run_pipeline (stem : String → String) (stopwords : List String)
    (wNugas wNongkrong : List (String × Nat))
    (shops : List Shop) (reviews : List ReviewRow) : List SegmentedShop :=
  segmentShops (normalizeShopScores (shop_scores
    (scoreRows stem stopwords wNugas wNongkrong (df_merged shops reviews))))

/-! ### Helper lemmas about column minima, maxima and scaling -/

lemma listMin_le {l : List ℚ} {x : ℚ} (hx : x ∈ l) : listMin l ≤ x := by
  induction l with
  | nil => cases hx
  | cons a t ih =>
    cases t with
    | nil =>
      rcases List.mem_cons.mp hx with rfl | h
      · simp [listMin]
      · cases h
    | cons b u =>
      simp only [listMin]
      rcases List.mem_cons.mp hx with rfl | h
      · exact min_le_left _ _
      · exact le_trans (min_le_right _ _) (ih h)

lemma le_listMax {l : List ℚ} {x : ℚ} (hx : x ∈ l) : x ≤ listMax l := by
  induction l with
  | nil => cases hx
  | cons a t ih =>
    cases t with
    | nil =>
      rcases List.mem_cons.mp hx with rfl | h
      · simp [listMax]
      · cases h
    | cons b u =>
      simp only [listMax]
      rcases List.mem_cons.mp hx with rfl | h
      · exact le_max_left _ _
      · exact le_trans (ih h) (le_max_right _ _)

lemma listMin_le_listMax {l : List ℚ} (h : l ≠ []) : listMin l ≤ listMax l := by
  cases l with
  | nil => exact absurd rfl h
  | cons a t =>
    exact le_trans (listMin_le (List.mem_cons_self a t)) (le_listMax (List.mem_cons_self a t))

lemma scaleDen_pos {lo hi : ℚ} (h : lo ≤ hi) :
    0 < (if hi - lo = 0 then (1 : ℚ) else hi - lo) := by
  split
  · norm_num
  · next hne => exact lt_of_le_of_ne (by linarith) (Ne.symm hne)

lemma scaleVal_nonneg {lo hi x : ℚ} (hle : lo ≤ hi) (hx : lo ≤ x) :
    0 ≤ scaleVal lo hi x :=
  div_nonneg (by linarith) (le_of_lt (scaleDen_pos hle))

lemma scaleVal_le_one {lo hi x : ℚ} (hlo : lo ≤ x) (hhi : x ≤ hi) :
    scaleVal lo hi x ≤ 1 := by
  have hle : lo ≤ hi := le_trans hlo hhi
  rw [scaleVal, div_le_one (scaleDen_pos hle)]
  split
  · next h0 => linarith
  · linarith

lemma scaleVal_mono {lo hi x y : ℚ} (hle : lo ≤ hi) (hxy : x ≤ y) :
    scaleVal lo hi x ≤ scaleVal lo hi y := by
  rw [scaleVal, scaleVal]
  have hd := scaleDen_pos hle
  gcongr

/-! ### Helper lemmas about the merge and the groupby -/

lemma mem_sortedKeys {rows : List MergedRow} {v : Nat} :
    v ∈ sortedKeys rows ↔ v ∈ rows.map fun r => r.id :=
  ((List.perm_insertionSort _ _).mem_iff).trans List.mem_dedup

lemma sortedKeys_nodup (rows : List MergedRow) : (sortedKeys rows).Nodup :=
  ((List.perm_insertionSort _ _).nodup_iff).mpr (List.nodup_dedup _)

lemma shop_scores_map_id (rows : List MergedRow) :
    (shop_scores rows).map (fun a => a.id) = sortedKeys rows := by
  rw [shop_scores, List.map_map]
  exact List.map_id _

lemma mem_df_merged {shops : List Shop} {reviews : List ReviewRow}
    {p : Shop × ReviewRow × String} (hp : p ∈ df_merged shops reviews) :
    p.1 ∈ shops ∧ p.2.1 ∈ reviews ∧ p.2.1.organizationId = p.1.id ∧
      p.2.1.reviewTextOriginal = some p.2.2 := by
  rw [df_merged, List.mem_filterMap] at hp
  obtain ⟨q, hq, hqe⟩ := hp
  rcases q with ⟨s, ro⟩
  cases ro with
  | none => simp at hqe
  | some r =>
    dsimp only at hqe
    cases htext : r.reviewTextOriginal with
    | none => rw [htext] at hqe; simp at hqe
    | some t =>
      rw [htext] at hqe
      simp only [Option.some.injEq] at hqe
      subst hqe
      simp only [merge_left, List.mem_flatMap] at hq
      obtain ⟨s', hs', hmem⟩ := hq
      split at hmem
      · simp at hmem
      · rw [List.mem_map] at hmem
        obtain ⟨r', hr', hre⟩ := hmem
        rw [Prod.mk.injEq, Option.some.injEq] at hre
        obtain ⟨rfl, rfl⟩ := hre
        rw [List.mem_filter] at hr'
        exact ⟨hs', hr'.1, by simpa using hr'.2, htext⟩

lemma merge_left_congr {shops : List Shop} {rv rv' : List ReviewRow}
    (h : ∀ s ∈ shops, rv.filter (fun r => r.organizationId == s.id) =
      rv'.filter (fun r => r.organizationId == s.id)) :
    merge_left shops rv = merge_left shops rv' := by
  induction shops with
  | nil => rfl
  | cons s t ih =>
    have hs := h s (List.mem_cons_self s t)
    have ht := ih fun s' hs' => h s' (List.mem_cons_of_mem _ hs')
    simp only [merge_left, List.flatMap_cons] at ht ⊢
    rw [hs, ht]

lemma df_merged_matched (shops : List Shop) (reviews : List ReviewRow) :
    df_merged shops
      (reviews.filter fun r => decide (r.organizationId ∈ shops.map fun s => s.id)) =
      df_merged shops reviews := by
  rw [df_merged, df_merged]
  congr 1
  apply merge_left_congr
  intro s hs
  rw [List.filter_filter]
  apply List.filter_congr
  intro r _
  by_cases hid : r.organizationId = s.id
  · simp only [hid, beq_self_eq_true, Bool.true_and]
    simp only [List.mem_map, decide_eq_true_eq]
    exact ⟨s, hs, rfl⟩
  · simp [hid]

lemma run_pipeline_matched (stem : String → String) (stopwords : List String)
    (wNugas wNongkrong : List (String × Nat))
    (shops : List Shop) (reviews : List ReviewRow) :
    run_pipeline stem stopwords wNugas wNongkrong shops reviews =
      run_pipeline stem stopwords wNugas wNongkrong shops
        (reviews.filter fun r => decide (r.organizationId ∈ shops.map fun s => s.id)) := by
  rw [run_pipeline, run_pipeline, df_merged_matched]

lemma scoreRows_id_mem {stem : String → String} {stopwords : List String}
    {wNugas wNongkrong : List (String × Nat)}
    {shops : List Shop} {reviews : List ReviewRow} {m : MergedRow}
    (hm : m ∈ scoreRows stem stopwords wNugas wNongkrong (df_merged shops reviews)) :
    ∃ s ∈ shops, m.id = s.id ∧
      ∃ r ∈ reviews, r.organizationId = s.id ∧ ∃ t, r.reviewTextOriginal = some t := by
  rw [scoreRows, List.mem_map] at hm
  obtain ⟨p, hp, rfl⟩ := hm
  obtain ⟨h1, h2, h3, h4⟩ := mem_df_merged hp
  exact ⟨p.1, h1, rfl, p.2.1, h2, h3, p.2.2, h4⟩

/-! ### Claim theorems -/

/-- C3: `calculate_weighted_score` returns the sum of `weights.get(token, 0)`
over every token of the sequence, counting duplicates, and is therefore
linear in token multiplicity: a text whose token sequence contains the token
`t` in a block of `k` copies scores `k * dict_get W t` plus the contribution
of the remaining tokens held fixed. -/
theorem calculate_weighted_score_linear (W : List (String × Nat)) (text : String) :
    calculate_weighted_score text W = ((pyWords text).map fun w => dict_get W w).sum ∧
    ∀ pre (t : String) (k : Nat) post,
      pyWords text = pre ++ List.replicate k t ++ post →
      calculate_weighted_score text W =
        ((pre ++ post).map fun w => dict_get W w).sum + k * dict_get W t := by
  refine ⟨rfl, ?_⟩
  intro pre t k post h
  rw [calculate_weighted_score, h]
  simp only [List.map_append, List.sum_append, List.map_replicate,
    List.sum_replicate, smul_eq_mul]
  ring

/-- Witness for C3: in `"wifi wifi wifi kerja"` the token `wifi` occurs three
times and contributes three times its weight. -/
theorem calculate_weighted_score_linear_witness :
    calculate_weighted_score ("wifi wifi wifi kerja") [("wifi", 3), ("kerja", 1)] =
      ((["kerja"].map fun w => dict_get [("wifi", 3), ("kerja", 1)] w).sum +
        3 * dict_get [("wifi", 3), ("kerja", 1)] "wifi") :=
  (calculate_weighted_score_linear [("wifi", 3), ("kerja", 1)]
    "wifi wifi wifi kerja").2 [] "wifi" 3 ["kerja"] (by decide)

/-- C8: preprocessing the empty input yields the empty token sequence (and no
failure), for any stemmer fixing the empty string; and preprocessing an input
containing only stopwords and/or punctuation (after stripping, every word is
a stopword) yields the empty token sequence, for any stemmer that keeps
stopword-only text stopword-only. -/
theorem preprocess_empty_and_stopword_inputs (stem : String → String)
    (stopwords : List String) (text : String) (h0 : stem ("") = ("")) :
    pyWords (preprocess_text_advanced stem stopwords ("")) = [] ∧
    ((∀ w ∈ pyWords (stripNonAlpha (pyLower text)), w ∈ stopwords) →
      (∀ u, (∀ w ∈ pyWords u, w ∈ stopwords) →
        ∀ w ∈ pyWords (stem u), w ∈ stopwords) →
      pyWords (preprocess_text_advanced stem stopwords text) = []) := by
  constructor
  · rw [preprocess_text_advanced]
    have he : stripNonAlpha (pyLower ("")) = ("") := rfl
    rw [he, h0]
    rfl
  · intro h1 h2
    rw [preprocess_text_advanced]
    have hall : ∀ w ∈ pyWords (stem (stripNonAlpha (pyLower text))), w ∈ stopwords :=
      h2 _ h1
    have hnil : (pyWords (stem (stripNonAlpha (pyLower text)))).filter
        (fun w => decide (w ∉ stopwords)) = [] := by
      rw [List.filter_eq_nil_iff]
      intro a ha
      simp only [decide_eq_true_eq, not_not]
      exact hall a ha
    rw [hnil]
    rfl

/-- Witness for C8: the identity stemmer on an input of stopwords and
punctuation only. -/
theorem preprocess_empty_and_stopword_inputs_witness :
    pyWords (preprocess_text_advanced (fun s => s) ["yg", "ga"] "Yg, GA!!") = [] :=
  (preprocess_empty_and_stopword_inputs (fun s => s) ["yg", "ga"] "Yg, GA!!" rfl).2
    (by decide) (fun _ h => h)

/-- C2: every venue of the population receives the label computed by
`assign_segment` from its two normalized scores and the two population
medians; `assign_segment` assigns exactly one of the four labels, each
characterized by the closed comparisons `score >= median`; and a venue whose
score equals the median counts as high (label `allRounder` or
`productivityHub`). -/
theorem assign_segment_partition (scores : List NormShopScore) (s : NormShopScore)
    (hs : s ∈ scores) :
    (⟨s, assign_segment (median (scores.map fun x => x.nugasNorm))
        (median (scores.map fun x => x.nongkrongNorm))
        s.nugasNorm s.nongkrongNorm⟩ : SegmentedShop) ∈ segmentShops scores ∧
    ∀ medA medB a b : ℚ,
      (assign_segment medA medB a b = Segment.allRounder ↔ medA ≤ a ∧ medB ≤ b) ∧
      (assign_segment medA medB a b = Segment.productivityHub ↔ medA ≤ a ∧ b < medB) ∧
      (assign_segment medA medB a b = Segment.socialHotspot ↔ a < medA ∧ medB ≤ b) ∧
      (assign_segment medA medB a b = Segment.generalPurpose ↔ a < medA ∧ b < medB) ∧
      (a = medA → assign_segment medA medB a b = Segment.allRounder ∨
        assign_segment medA medB a b = Segment.productivityHub) := by
  constructor
  · simp only [segmentShops]
    exact List.mem_map_of_mem _ hs
  · intro medA medB a b
    by_cases hA : medA ≤ a <;> by_cases hB : medB ≤ b
    · simp [assign_segment, hA, hB, ge_iff_le, not_lt.mpr hA, not_lt.mpr hB]
    · simp [assign_segment, hA, hB, ge_iff_le, not_le.mp hB, not_lt.mpr hA]
    · have ha' : a < medA := not_le.mp hA
      simp [assign_segment, hA, hB, ge_iff_le, ha', not_lt.mpr hB]
      intro h
      exact absurd (le_of_eq h.symm) hA
    · have ha' : a < medA := not_le.mp hA
      have hb' : b < medB := not_le.mp hB
      simp [assign_segment, hA, hB, ge_iff_le, ha', hb']
      intro h
      exact absurd (le_of_eq h.symm) hA

/-- Witness for C2: a three-venue population whose middle venue sits exactly
on the nugas median and is classified high. -/
theorem assign_segment_partition_witness :
    (⟨⟨2, "B", 4, 10, 10, 0, 1/2, 0⟩,
      assign_segment
        (median (([⟨1, "A", 4, 10, 0, 0, 0, 0⟩, ⟨2, "B", 4, 10, 10, 0, 1/2, 0⟩,
          ⟨3, "C", 4, 10, 20, 0, 1, 0⟩] : List NormShopScore).map fun x => x.nugasNorm))
        (median (([⟨1, "A", 4, 10, 0, 0, 0, 0⟩, ⟨2, "B", 4, 10, 10, 0, 1/2, 0⟩,
          ⟨3, "C", 4, 10, 20, 0, 1, 0⟩] : List NormShopScore).map fun x => x.nongkrongNorm))
        (1/2) 0⟩ : SegmentedShop) ∈
      segmentShops [⟨1, "A", 4, 10, 0, 0, 0, 0⟩, ⟨2, "B", 4, 10, 10, 0, 1/2, 0⟩,
        ⟨3, "C", 4, 10, 20, 0, 1, 0⟩] :=
  (assign_segment_partition
    [⟨1, "A", 4, 10, 0, 0, 0, 0⟩, ⟨2, "B", 4, 10, 10, 0, 1/2, 0⟩,
      ⟨3, "C", 4, 10, 20, 0, 1, 0⟩]
    ⟨2, "B", 4, 10, 10, 0, 1/2, 0⟩ (by simp)).1

/-- C9: the embedded engine is a pure function of its inputs; re-running the
full pipeline on identical inputs yields identical venue aggregate totals and
identical segment labels. -/
theorem run_pipeline_deterministic (stem : String → String) (stopwords : List String)
    (wNugas wNongkrong : List (String × Nat)) (shops : List Shop)
    (reviews : List ReviewRow) :
    run_pipeline stem stopwords wNugas wNongkrong shops reviews =
      run_pipeline stem stopwords wNugas wNongkrong shops reviews ∧
    (shop_scores (scoreRows stem stopwords wNugas wNongkrong
        (df_merged shops reviews))).map
        (fun a => (a.totalSkorNugas, a.totalSkorNongkrong)) =
      (shop_scores (scoreRows stem stopwords wNugas wNongkrong
        (df_merged shops reviews))).map
        (fun a => (a.totalSkorNugas, a.totalSkorNongkrong)) ∧
    (run_pipeline stem stopwords wNugas wNongkrong shops reviews).map
        (fun x => x.segment) =
      (run_pipeline stem stopwords wNugas wNongkrong shops reviews).map
        (fun x => x.segment) :=
  ⟨rfl, rfl, rfl⟩

/-- C1: when the maximum and minimum of a persona's raw venue totals
coincide (all venues tied, including the single-venue case), normalization
assigns exactly 0 to every venue for that persona; the zero range is
replaced by 1 before dividing, so no division by zero and no NaN arises. -/
theorem minmax_degenerate_all_zero (ss : List ShopScore) :
    (listMax (colNugas ss) = listMin (colNugas ss) →
      ∀ n ∈ normalizeShopScores ss, n.nugasNorm = 0) ∧
    (listMax (colNongkrong ss) = listMin (colNongkrong ss) →
      ∀ n ∈ normalizeShopScores ss, n.nongkrongNorm = 0) := by
  constructor
  · intro hdeg n hn
    rw [normalizeShopScores, List.mem_map] at hn
    obtain ⟨s, hsmem, rfl⟩ := hn
    have hx : ((s.totalSkorNugas : ℚ)) ∈ colNugas ss := List.mem_map_of_mem _ hsmem
    have h1 := listMin_le hx
    have h2 := le_listMax hx
    have hxeq : (s.totalSkorNugas : ℚ) = listMin (colNugas ss) :=
      le_antisymm (hdeg ▸ h2) h1
    show scaleVal _ _ _ = 0
    rw [scaleVal, hxeq, sub_self, zero_div]
  · intro hdeg n hn
    rw [normalizeShopScores, List.mem_map] at hn
    obtain ⟨s, hsmem, rfl⟩ := hn
    have hx : ((s.totalSkorNongkrong : ℚ)) ∈ colNongkrong ss :=
      List.mem_map_of_mem _ hsmem
    have h1 := listMin_le hx
    have h2 := le_listMax hx
    have hxeq : (s.totalSkorNongkrong : ℚ) = listMin (colNongkrong ss) :=
      le_antisymm (hdeg ▸ h2) h1
    show scaleVal _ _ _ = 0
    rw [scaleVal, hxeq, sub_self, zero_div]

/-- Witness for C1: two venues with tied nugas totals both normalize to 0. -/
theorem minmax_degenerate_all_zero_witness :
    (normalizeOne [⟨1, "A", 4, 10, 5, 7⟩, ⟨2, "B", 3, 20, 5, 9⟩]
      ⟨1, "A", 4, 10, 5, 7⟩).nugasNorm = 0 :=
  (minmax_degenerate_all_zero [⟨1, "A", 4, 10, 5, 7⟩, ⟨2, "B", 3, 20, 5, 9⟩]).1
    (by norm_num [colNugas, listMax, listMin])
    (normalizeOne [⟨1, "A", 4, 10, 5, 7⟩, ⟨2, "B", 3, 20, 5, 9⟩] ⟨1, "A", 4, 10, 5, 7⟩)
    (List.mem_map_of_mem _ (List.mem_cons_self _ _))

/-- C4: normalization computes, per persona, the minimum and maximum of the
raw totals over the whole input and maps each total to
(total - min) / (max - min); every normalized value lies in [0, 1]; raw
totals [10, 20, 30] normalize to [0, 1/2, 1]. -/
theorem minmax_scale_bounds (ss : List ShopScore) (hne : ss ≠ []) :
    (∀ n ∈ normalizeShopScores ss,
      0 ≤ n.nugasNorm ∧ n.nugasNorm ≤ 1 ∧
        0 ≤ n.nongkrongNorm ∧ n.nongkrongNorm ≤ 1) ∧
    (listMax (colNugas ss) ≠ listMin (colNugas ss) →
      (normalizeShopScores ss).map (fun n => n.nugasNorm) =
        (colNugas ss).map fun t => (t - listMin (colNugas ss)) /
          (listMax (colNugas ss) - listMin (colNugas ss))) ∧
    (listMax (colNongkrong ss) ≠ listMin (colNongkrong ss) →
      (normalizeShopScores ss).map (fun n => n.nongkrongNorm) =
        (colNongkrong ss).map fun t => (t - listMin (colNongkrong ss)) /
          (listMax (colNongkrong ss) - listMin (colNongkrong ss))) ∧
    minmaxScale [10, 20, 30] = [0, 1/2, 1] := by
  refine ⟨?_, ?_, ?_, ?_⟩
  · intro n hn
    rw [normalizeShopScores, List.mem_map] at hn
    obtain ⟨s, hsmem, rfl⟩ := hn
    have hxA : ((s.totalSkorNugas : ℚ)) ∈ colNugas ss := List.mem_map_of_mem _ hsmem
    have hxB : ((s.totalSkorNongkrong : ℚ)) ∈ colNongkrong ss :=
      List.mem_map_of_mem _ hsmem
    exact ⟨scaleVal_nonneg (le_trans (listMin_le hxA) (le_listMax hxA)) (listMin_le hxA),
      scaleVal_le_one (listMin_le hxA) (le_listMax hxA),
      scaleVal_nonneg (le_trans (listMin_le hxB) (le_listMax hxB)) (listMin_le hxB),
      scaleVal_le_one (listMin_le hxB) (le_listMax hxB)⟩
  · intro hne'
    rw [normalizeShopScores, colNugas, List.map_map, List.map_map]
    apply List.map_congr_left
    intro s _
    show scaleVal _ _ _ = _
    rw [scaleVal, if_neg (fun h => hne' (by linarith [sub_eq_zero.mp h]))]
    simp [colNugas]
  · intro hne'
    rw [normalizeShopScores, colNongkrong, List.map_map, List.map_map]
    apply List.map_congr_left
    intro s _
    show scaleVal _ _ _ = _
    rw [scaleVal, if_neg (fun h => hne' (by linarith [sub_eq_zero.mp h]))]
    simp [colNongkrong]
  · norm_num [minmaxScale, scaleVal, listMin, listMax]

/-- Witness for C4: the [10, 20, 30] end-to-end normalization example. -/
theorem minmax_scale_bounds_witness :
    minmaxScale [10, 20, 30] = [0, 1/2, 1] :=
  (minmax_scale_bounds [⟨1, "A", 4, 10, 0, 0⟩] (by simp)).2.2.2

/-- C10: normalization is monotone per persona over a fixed population: a
venue with the smaller or equal raw total receives the smaller or equal
normalized score, and tied raw totals receive identical normalized scores. -/
theorem minmax_scale_monotone (ss : List ShopScore) (a b : ShopScore)
    (ha : a ∈ ss) (hb : b ∈ ss) :
    (a.totalSkorNugas ≤ b.totalSkorNugas →
      (normalizeOne ss a).nugasNorm ≤ (normalizeOne ss b).nugasNorm) ∧
    (a.totalSkorNugas = b.totalSkorNugas →
      (normalizeOne ss a).nugasNorm = (normalizeOne ss b).nugasNorm) ∧
    (a.totalSkorNongkrong ≤ b.totalSkorNongkrong →
      (normalizeOne ss a).nongkrongNorm ≤ (normalizeOne ss b).nongkrongNorm) ∧
    (a.totalSkorNongkrong = b.totalSkorNongkrong →
      (normalizeOne ss a).nongkrongNorm = (normalizeOne ss b).nongkrongNorm) := by
  have hxA : ((a.totalSkorNugas : ℚ)) ∈ colNugas ss := List.mem_map_of_mem _ ha
  have hxB : ((a.totalSkorNongkrong : ℚ)) ∈ colNongkrong ss := List.mem_map_of_mem _ ha
  have hleA : listMin (colNugas ss) ≤ listMax (colNugas ss) :=
    le_trans (listMin_le hxA) (le_listMax hxA)
  have hleB : listMin (colNongkrong ss) ≤ listMax (colNongkrong ss) :=
    le_trans (listMin_le hxB) (le_listMax hxB)
  refine ⟨?_, ?_, ?_, ?_⟩
  · intro h
    exact scaleVal_mono hleA (by exact_mod_cast h)
  · intro h
    show scaleVal _ _ _ = scaleVal _ _ _
    rw [h]
  · intro h
    exact scaleVal_mono hleB (by exact_mod_cast h)
  · intro h
    show scaleVal _ _ _ = scaleVal _ _ _
    rw [h]

/-- Witness for C10: with raw nugas totals 2 and 5, the normalized scores
are ordered accordingly. -/
theorem minmax_scale_monotone_witness :
    (normalizeOne [⟨1, "A", 4, 10, 2, 3⟩, ⟨2, "B", 3, 20, 5, 3⟩]
        ⟨1, "A", 4, 10, 2, 3⟩).nugasNorm ≤
      (normalizeOne [⟨1, "A", 4, 10, 2, 3⟩, ⟨2, "B", 3, 20, 5, 3⟩]
        ⟨2, "B", 3, 20, 5, 3⟩).nugasNorm :=
  (minmax_scale_monotone [⟨1, "A", 4, 10, 2, 3⟩, ⟨2, "B", 3, 20, 5, 3⟩]
    ⟨1, "A", 4, 10, 2, 3⟩ ⟨2, "B", 3, 20, 5, 3⟩
    (List.mem_cons_self _ _)
    (List.mem_cons_of_mem _ (List.mem_cons_self _ _))).1 (by norm_num)

/-- C5: aggregation produces exactly one aggregate per distinct venue id
among the scored rows and no zero-filled aggregate for any other venue: the
output ids are duplicate-free, an id appears iff some scored row carries it,
and a shop none of whose matching reviews carries text is absent, so its
segment is never computed. -/
theorem aggregates_only_reviewed_venues (stem : String → String)
    (stopwords : List String) (wNugas wNongkrong : List (String × Nat))
    (shops : List Shop) (reviews : List ReviewRow) :
    ((shop_scores (scoreRows stem stopwords wNugas wNongkrong
        (df_merged shops reviews))).map fun a => a.id).Nodup ∧
    (∀ v : Nat,
      (v ∈ (shop_scores (scoreRows stem stopwords wNugas wNongkrong
          (df_merged shops reviews))).map fun a => a.id) ↔
        v ∈ (scoreRows stem stopwords wNugas wNongkrong
          (df_merged shops reviews)).map fun r => r.id) ∧
    ∀ s ∈ shops,
      (∀ r ∈ reviews, r.organizationId = s.id → r.reviewTextOriginal = none) →
      s.id ∉ (shop_scores (scoreRows stem stopwords wNugas wNongkrong
        (df_merged shops reviews))).map fun a => a.id := by
  refine ⟨?_, ?_, ?_⟩
  · rw [shop_scores_map_id]
    exact sortedKeys_nodup _
  · intro v
    rw [shop_scores_map_id]
    exact mem_sortedKeys
  · intro s hs hnone hmem
    rw [shop_scores_map_id, mem_sortedKeys, List.mem_map] at hmem
    obtain ⟨m, hm, hmid⟩ := hmem
    obtain ⟨s', hs', hms', r, hr, hrid, t, ht⟩ := scoreRows_id_mem hm
    have hnil : r.reviewTextOriginal = none :=
      hnone r hr (by rw [hrid, ← hms', hmid])
    rw [ht] at hnil
    cases hnil

/-- Witness for C5: a shop whose only matching review has no text produces
no aggregate. -/
theorem aggregates_only_reviewed_venues_witness :
    (7 : Nat) ∉ (shop_scores (scoreRows (fun s => s) [] [("wifi", 3)] []
      (df_merged [⟨7, "Z", 5, 1⟩] [⟨7, none⟩]))).map (fun a => a.id) :=
  (aggregates_only_reviewed_venues (fun s => s) [] [("wifi", 3)] []
    [⟨7, "Z", 5, 1⟩] [⟨7, none⟩]).2.2 ⟨7, "Z", 5, 1⟩
    (List.mem_cons_self _ _) (by decide)

/-- C7: aggregation groups the scored rows by venue id; for every id present
among the rows there is an aggregate carrying that id whose totals are the
sums of the group's nugas and nongkrong scores, and whose display name,
rating and review count come from the first row of the group (first-seen
semantics). -/
theorem shop_scores_groupby_sums (rows : List MergedRow) (v : Nat)
    (hv : v ∈ rows.map fun r => r.id) :
    ∃ a ∈ shop_scores rows, a.id = v ∧
      a.totalSkorNugas = ((rows.filter fun r => r.id == v).map
        fun r => r.skorNugasReview).sum ∧
      a.totalSkorNongkrong = ((rows.filter fun r => r.id == v).map
        fun r => r.skorNongkrongReview).sum ∧
      ∀ r0, (rows.find? fun r => r.id == v) = some r0 →
        a.organizationName = r0.organizationName ∧ a.rateStars = r0.rateStars ∧
          a.reviewsTotalCount = r0.reviewsTotalCount := by
  have hv' : v ∈ sortedKeys rows := mem_sortedKeys.mpr hv
  refine ⟨_, List.mem_map_of_mem _ hv', rfl, rfl, rfl, ?_⟩
  intro r0 h0
  refine ⟨?_, ?_, ?_⟩
  · show ((rows.find? fun r => r.id == v).map fun r => r.organizationName).getD ("") = _
    rw [h0]
    rfl
  · show ((rows.find? fun r => r.id == v).map fun r => r.rateStars).getD 0 = _
    rw [h0]
    rfl
  · show ((rows.find? fun r => r.id == v).map fun r => r.reviewsTotalCount).getD 0 = _
    rw [h0]
    rfl

/-- Witness for C7 on a two-row group with venue id 1. -/
theorem shop_scores_groupby_sums_witness :
    ∃ a ∈ shop_scores [⟨1, "A", 4, 10, 2, 3⟩, ⟨1, "A", 4, 10, 5, 1⟩], a.id = 1 ∧
      a.totalSkorNugas = ((([⟨1, "A", 4, 10, 2, 3⟩, ⟨1, "A", 4, 10, 5, 1⟩] :
        List MergedRow).filter fun r => r.id == 1).map
          fun r => r.skorNugasReview).sum ∧
      a.totalSkorNongkrong = ((([⟨1, "A", 4, 10, 2, 3⟩, ⟨1, "A", 4, 10, 5, 1⟩] :
        List MergedRow).filter fun r => r.id == 1).map
          fun r => r.skorNongkrongReview).sum ∧
      ∀ r0, (([⟨1, "A", 4, 10, 2, 3⟩, ⟨1, "A", 4, 10, 5, 1⟩] :
          List MergedRow).find? fun r => r.id == 1) = some r0 →
        a.organizationName = r0.organizationName ∧ a.rateStars = r0.rateStars ∧
          a.reviewsTotalCount = r0.reviewsTotalCount :=
  shop_scores_groupby_sums [⟨1, "A", 4, 10, 2, 3⟩, ⟨1, "A", 4, 10, 5, 1⟩] 1 (by decide)

/-- C6 counterexample: a review whose venue id (2) is absent from the shops
table is silently dropped by the left merge.  The run is not rejected — it
still produces its normal single-venue output — and the output is identical
to the run without the offending record, so no trace of the skipped record
is reported anywhere in the engine's output. -/
theorem unmatched_review_silently_skipped :
    run_pipeline (fun s => s) [] [("wifi", 3)] [] [⟨1, "A", 4, 10⟩]
        [⟨1, some ("wifi")⟩, ⟨2, some ("wifi")⟩] =
      run_pipeline (fun s => s) [] [("wifi", 3)] [] [⟨1, "A", 4, 10⟩]
        [⟨1, some ("wifi")⟩] ∧
    (run_pipeline (fun s => s) [] [("wifi", 3)] [] [⟨1, "A", 4, 10⟩]
        [⟨1, some ("wifi")⟩, ⟨2, some ("wifi")⟩]).map (fun x => x.score.id) = [1] := by
  constructor
  · have h : df_merged [⟨1, "A", 4, 10⟩] [⟨1, some ("wifi")⟩, ⟨2, some ("wifi")⟩] =
        df_merged [⟨1, "A", 4, 10⟩] [⟨1, some ("wifi")⟩] := by decide
    rw [run_pipeline, run_pipeline, h]
  · decide

/-- C6 amended: a review referencing a venue id absent from the shops table
is silently skipped: the run's output equals the output on the input with
every such record removed (in particular such records never affect aggregate
sums), and no metadata is ever fabricated — every aggregate's id is the id
of some shop.  The engine neither rejects the run nor reports the skipped
record. -/
theorem unmatched_reviews_skipped_no_effect (stem : String → String)
    (stopwords : List String) (wNugas wNongkrong : List (String × Nat))
    (shops : List Shop) (reviews : List ReviewRow) :
    run_pipeline stem stopwords wNugas wNongkrong shops reviews =
      run_pipeline stem stopwords wNugas wNongkrong shops
        (reviews.filter fun r =>
          decide (r.organizationId ∈ shops.map fun s => s.id)) ∧
    ∀ a ∈ shop_scores (scoreRows stem stopwords wNugas wNongkrong
        (df_merged shops reviews)), a.id ∈ shops.map fun s => s.id := by
  constructor
  · exact run_pipeline_matched stem stopwords wNugas wNongkrong shops reviews
  · intro a ha
    rw [shop_scores, List.mem_map] at ha
    obtain ⟨v, hv, rfl⟩ := ha
    have hv' := mem_sortedKeys.mp hv
    rw [List.mem_map] at hv'
    obtain ⟨m, hm, hmv⟩ := hv'
    obtain ⟨s, hs, hms, -⟩ := scoreRows_id_mem hm
    show v ∈ shops.map fun s => s.id
    exact List.mem_map.mpr ⟨s, hs, by rw [← hms]; exact hmv⟩

/-- Witness for the amended C6 on a one-shop input with one unmatched
review. -/
theorem unmatched_reviews_skipped_no_effect_witness :
    run_pipeline (fun s => s) [] [] [] [⟨3, "C", 2, 1⟩] [⟨4, some ("x")⟩] =
      run_pipeline (fun s => s) [] [] [] [⟨3, "C", 2, 1⟩]
        ([⟨4, some ("x")⟩].filter fun r =>
          decide (r.organizationId ∈ ([⟨3, "C", 2, 1⟩] : List Shop).map
            fun s => s.id)) :=
  (unmatched_reviews_skipped_no_effect (fun s => s) [] [] []
    [⟨3, "C", 2, 1⟩] [⟨4, some ("x")⟩]).1

/-- Witness for C9: a concrete re-run equality. -/
theorem run_pipeline_deterministic_witness :
    run_pipeline (fun s => s) [] [("wifi", 3)] [] [⟨1, "A", 4, 10⟩]
        [⟨1, some ("wifi")⟩] =
      run_pipeline (fun s => s) [] [("wifi", 3)] [] [⟨1, "A", 4, 10⟩]
        [⟨1, some ("wifi")⟩] :=
  (run_pipeline_deterministic (fun s => s) [] [("wifi", 3)] []
    [⟨1, "A", 4, 10⟩] [⟨1, some ("wifi")⟩]).1
